import Mathlib

set_option autoImplicit false

namespace Esmw

/-- A JavaScript-like runtime value, used for request part data, validator
outputs, error causes and thrown values. -/
inductive Value where
  | vNull
  | vUndefined
  | vBool (b : Bool)
  | vInt (n : Int)
  | vStr (s : String)
  deriving DecidableEq, Repr

/-- JavaScript truthiness of a value. -/
def Value.truthy : Value → Bool
  | .vNull => false
  | .vUndefined => false
  | .vBool b => b
  | .vInt n => n != 0
  | .vStr s => s != ""

/-- JavaScript String conversion of a value. -/
def Value.jsString : Value → String
  | .vNull => "null"
  | .vUndefined => "undefined"
  | .vBool true => "true"
  | .vBool false => "false"
  | .vInt n => toString n
  | .vStr s => s

/-- A JavaScript thrown value: either an Error instance carrying a message,
or an arbitrary non-Error value. -/
inductive Thrown where
  | errObj (message : String)
  | value (v : Value)
  deriving DecidableEq, Repr

/-- Truthiness of a thrown value; an Error instance is an object, hence truthy. -/
def Thrown.truthy : Thrown → Bool
  | .errObj _ => true
  | .value v => v.truthy

/-- The structured error of a failed validation result: message plus optional
cause, as in the safeParse failure shape of the schema library. -/
structure VError where
  message : String
  cause : Option Value
  deriving DecidableEq, Repr

/-- What safeParse returns when it returns: a tagged success with normalized
data, or a tagged failure with a structured error. -/
inductive ParseReturn where
  | success (data : Value)
  | failure (error : VError)
  deriving DecidableEq, Repr

/-- Outcome of invoking a schema validator: it returns a parse result, or it
throws (a defect in the validator itself). -/
inductive ValidatorOutcome where
  | returns (r : ParseReturn)
  | throws (t : Thrown)
  deriving DecidableEq, Repr

/-- A Schema Validator capability: safeParse as a function of its input. -/
abbrev Validator : Type := Value → ValidatorOutcome

/-- The fixed closed set of request parts, in evaluation order. -/
inductive Part where
  | body
  | query
  | params
  | headers
  deriving DecidableEq, Repr

instance : Fintype Part where
  elems := ⟨[Part.body, Part.query, Part.params, Part.headers], by decide⟩
  complete := by intro x; cases x <;> decide

/-- Position of a part in the fixed evaluation order body, query, params, headers. -/
def Part.idx : Part → Nat
  | .body => 0
  | .query => 1
  | .params => 2
  | .headers => 3

/-- The literal part list iterated by the middleware. -/
def partOrder : List Part := [Part.body, Part.query, Part.params, Part.headers]

/-- The schema map given to validate: an optional validator per part. -/
structure SchemaMap where
  body : Option Validator
  query : Option Validator
  params : Option Validator
  headers : Option Validator

/-- Indexing the schema map by part name, as schema[part] does. -/
def SchemaMap.get (σ : SchemaMap) : Part → Option Validator
  | .body => σ.body
  | .query => σ.query
  | .params => σ.params
  | .headers => σ.headers

/-- The dedicated validated-data namespace req.schema of the namespace variant:
an optional stored value per part. -/
structure SchemaNs where
  body : Option Value
  query : Option Value
  params : Option Value
  headers : Option Value
  deriving DecidableEq, Repr

/-- The empty namespace object created by the lazy initialization. -/
def SchemaNs.empty : SchemaNs := ⟨none, none, none, none⟩

/-- Reading a slot of the validated-data namespace. -/
def SchemaNs.get (ns : SchemaNs) : Part → Option Value
  | .body => ns.body
  | .query => ns.query
  | .params => ns.params
  | .headers => ns.headers

/-- Writing a slot of the validated-data namespace. -/
def SchemaNs.set (ns : SchemaNs) (p : Part) (d : Value) : SchemaNs :=
  match p with
  | .body => { ns with body := some d }
  | .query => { ns with query := some d }
  | .params => { ns with params := some d }
  | .headers => { ns with headers := some d }

/-- The mutable request context: the four native part fields plus the optional
validated-data namespace (absent models a falsy req.schema). -/
structure Req where
  body : Value
  query : Value
  params : Value
  headers : Value
  schema : Option SchemaNs
  deriving DecidableEq, Repr

/-- Reading a native part field of the request. -/
def Req.getPart (r : Req) : Part → Value
  | .body => r.body
  | .query => r.query
  | .params => r.params
  | .headers => r.headers

/-- Overwriting a native part field of the request. -/
def Req.setPart (r : Req) (p : Part) (d : Value) : Req :=
  match p with
  | .body => { r with body := d }
  | .query => { r with query := d }
  | .params => { r with params := d }
  | .headers => { r with headers := d }

/-- The JSON body produced by the default error handler: either an object with
fields error and cause, or an object with the single field error. -/
inductive RespBody where
  | errorWithCause (error : String) (cause : Option Value)
  | errorOnly (error : String)
  deriving DecidableEq, Repr

/-- The response capability state: status code and JSON body, if set. -/
structure Res where
  status : Option Nat
  jsonBody : Option RespBody
  deriving DecidableEq, Repr

/-- The error value handed to the error handler: the structured error of a
failure result, or a value coming from a throw. -/
inductive HandlerError where
  | structured (e : VError)
  | thrown (t : Thrown)
  deriving DecidableEq, Repr

/-- The context object the dispatcher assembles for an error-handler call:
request and response state at call time, the failing part, the error, and the
failure result when one exists. -/
structure HandlerCtx where
  req : Req
  res : Res
  part : Part
  error : HandlerError
  result : Option VError
  deriving DecidableEq, Repr

/-- Observable behavior of one error-handler invocation: the response state it
leaves behind, the continuation calls it made itself, and, if it threw, the
thrown value. -/
structure HandlerOut where
  res : Res
  nextCalls : List (Option Thrown)
  retOrThrow : Option Thrown

/-- An error handler as a function from its call context to its observable
behavior. -/
abbrev Handler : Type := HandlerCtx → HandlerOut

/-- The text the default handler derives from the error on the no-result path:
the message of an Error instance, else the JavaScript string form. -/
def jsStringOfError : HandlerError → String
  | .structured _ => "[object Object]"
  | .thrown (.errObj m) => m
  | .thrown (.value v) => v.jsString

/-- The built-in default error handler: status 400 with a JSON body exposing
the structured error when a result exists, else the string form of the fault.
It returns normally and never touches the continuation. -/
def defaultErrorHandler : Handler := fun ctx =>
  match ctx.result with
  | some e =>
    ⟨⟨some 400, some (RespBody.errorWithCause e.message e.cause)⟩, [], none⟩
  | none =>
    ⟨⟨some 400, some (RespBody.errorOnly (jsStringOfError ctx.error))⟩, [], none⟩

/-- The two variants of the middleware found in the source: the namespace
variant writes validated data into req.schema, the write-through variant
overwrites the native request fields. -/
inductive Variant where
  | ns
  | wt
  deriving DecidableEq, Repr

/-- Normalization a caught throw undergoes before reaching the error handler.
The namespace variant keeps an Error instance and replaces any other thrown
value by a fresh Error with message Unknown error; the write-through variant
keeps any truthy thrown value and replaces only falsy ones. -/
def catchError : Variant → Thrown → HandlerError
  | .ns, .errObj m => .thrown (.errObj m)
  | .ns, .value _ => .thrown (.errObj "Unknown error")
  | .wt, t => .thrown (if t.truthy then t else .errObj "Unknown error")

/-- Where a successful validation writes its normalized data: into the
namespace slot, or over the native part field. -/
def writeSuccess : Variant → Part → Value → Req → Req
  | .ns, p, d, r => { r with schema := some ((r.schema.getD SchemaNs.empty).set p d) }
  | .wt, p, d, r => r.setPart p d

/-- Per-request initialization: the namespace variant lazily creates an empty
req.schema when absent; the write-through variant does nothing. -/
def initReq : Variant → Req → Req
  | .ns, r =>
    match r.schema with
    | none => { r with schema := some SchemaNs.empty }
    | some _ => r
  | .wt, r => r

/-- Everything observable about one middleware run: final request and response
state, the parts whose validator was invoked in order, the error-handler
invocations in order, the continuation calls the dispatcher made itself, and
the continuation calls made from inside handler invocations. -/
structure RunResult where
  req : Req
  res : Res
  evaluated : List Part
  handlerCalls : List HandlerCtx
  dispNext : List (Option Thrown)
  handlerNext : List (Option Thrown)
  deriving Repr

/-- One handler invocation from a catch block: if the handler throws, the
outer catch forwards the fault to the continuation. -/
def handleCatch (h : Handler) (ctx : HandlerCtx) (r : Req) (ev : List Part) : RunResult :=
  let out := h ctx
  { req := r
    res := out.res
    evaluated := ev
    handlerCalls := [ctx]
    dispNext := match out.retOrThrow with | none => [] | some t => [some t]
    handlerNext := out.nextCalls }

/-- The validation-failure path: the handler call sits inside the per-part try
block, so if this first invocation throws, the per-part catch runs and invokes
the handler a second time with the normalized thrown error and no result; a
fault from that second invocation reaches the outer catch and is forwarded to
the continuation. -/
def handleFailure (var : Variant) (h : Handler) (r : Req) (res : Res) (p : Part)
    (e : VError) (ev : List Part) : RunResult :=
  let ctx1 : HandlerCtx := ⟨r, res, p, HandlerError.structured e, some e⟩
  let out1 := h ctx1
  match out1.retOrThrow with
  | none => ⟨r, out1.res, ev, [ctx1], [], out1.nextCalls⟩
  | some t1 =>
    let R2 := handleCatch h ⟨r, out1.res, p, catchError var t1, none⟩ r ev
    { R2 with
        handlerCalls := ctx1 :: R2.handlerCalls
        handlerNext := out1.nextCalls ++ R2.handlerNext }

/-- The per-part loop of the middleware: skip undeclared parts, run the
declared validator on the current native field, write normalized data on
success, divert to the error handler on a failure result or a throw, and call
the continuation with no argument when the list is exhausted. -/
def runParts (var : Variant) (σ : SchemaMap) (h : Handler) (res : Res) :
    List Part → Req → List Part → RunResult
  | [], r, ev => ⟨r, res, ev, [], [none], []⟩
  | p :: rest, r, ev =>
    match σ.get p with
    | none => runParts var σ h res rest r ev
    | some v =>
      match v (r.getPart p) with
      | .returns (.success d) =>
        runParts var σ h res rest (writeSuccess var p d r) (ev ++ [p])
      | .returns (.failure e) =>
        handleFailure var h r res p e (ev ++ [p])
      | .throws t =>
        handleCatch h ⟨r, res, p, catchError var t, none⟩ r (ev ++ [p])

/-- The middleware produced by validate, applied to a request, response and
continuation: initialize the namespace when applicable and run the fixed part
loop, with the default error handler when none was supplied. -/
def validate (var : Variant) (σ : SchemaMap) (h : Option Handler)
    (r : Req) (res : Res) : RunResult :=
  runParts var σ (h.getD defaultErrorHandler) res partOrder (initReq var r) []

/-- Convenience constructor for a body-only schema map. -/
def validateBody (var : Variant) (s : Validator) (h : Option Handler)
    (r : Req) (res : Res) : RunResult :=
  validate var ⟨some s, none, none, none⟩ h r res

/-- Convenience constructor for a query-only schema map. -/
def validateQuery (var : Variant) (s : Validator) (h : Option Handler)
    (r : Req) (res : Res) : RunResult :=
  validate var ⟨none, some s, none, none⟩ h r res

/-- Convenience constructor for a params-only schema map. -/
def validateParams (var : Variant) (s : Validator) (h : Option Handler)
    (r : Req) (res : Res) : RunResult :=
  validate var ⟨none, none, some s, none⟩ h r res

/-- Convenience constructor for a headers-only schema map. -/
def validateHeaders (var : Variant) (s : Validator) (h : Option Handler)
    (r : Req) (res : Res) : RunResult :=
  validate var ⟨none, none, none, some s⟩ h r res

/-- Whether a validator outcome is anything other than a tagged success. -/
def outcomeFails : ValidatorOutcome → Bool
  | .returns (.success _) => false
  | .returns (.failure _) => true
  | .throws _ => true

/-- Whether part p is declared in σ and its validator, run on the raw value of
p in request r, does not succeed (failure result or throw). -/
def partFailsB (σ : SchemaMap) (r : Req) (p : Part) : Bool :=
  match σ.get p with
  | none => false
  | some v => outcomeFails (v (r.getPart p))

/-- Where a given run variant stores validated data for a part: the namespace
slot for the namespace variant, the native field for the write-through one. -/
def validatedData : Variant → Req → Part → Option Value
  | .ns, r, p => r.schema.bind (fun ns => SchemaNs.get ns p)
  | .wt, r, p => some (r.getPart p)

/-- A validator that always fails with a structured error carrying message bad. -/
def failBad : Validator := fun _ => ValidatorOutcome.returns (ParseReturn.failure ⟨"bad", none⟩)

/-- A validator that accepts every input and normalizes it to the integer 2. -/
def okTwo : Validator := fun _ => ValidatorOutcome.returns (ParseReturn.success (Value.vInt 2))

/-- A validator that always throws an Error instance with message boom. -/
def throwBoom : Validator := fun _ => ValidatorOutcome.throws (Thrown.errObj "boom")

/-- A validator that always throws the non-Error value null. -/
def throwNull : Validator := fun _ => ValidatorOutcome.throws (Thrown.value Value.vNull)

/-- An error handler that always throws: an Error with message crash1 when
called with a failure result, an Error with message crash2 when called without
one. -/
def crashingHandler : Handler := fun ctx =>
  match ctx.result with
  | some _ => ⟨ctx.res, [], some (Thrown.errObj "crash1")⟩
  | none => ⟨ctx.res, [], some (Thrown.errObj "crash2")⟩

/-- A sample request with distinct integer part values and no namespace yet. -/
def sampleReq : Req := ⟨Value.vInt 1, Value.vInt 10, Value.vInt 20, Value.vInt 30, none⟩

/-- A fresh response with nothing set. -/
def sampleRes : Res := ⟨none, none⟩

theorem getPart_initReq (var : Variant) (r : Req) (p : Part) :
    (initReq var r).getPart p = r.getPart p := by
  obtain ⟨b, q, pa, hd, sc⟩ := r
  cases var <;> cases sc <;> cases p <;> rfl

theorem schema_initReq_wt (r : Req) : initReq Variant.wt r = r := rfl

theorem schemaNs_get_empty (q : Part) : SchemaNs.empty.get q = none := by
  cases q <;> rfl

theorem schemaNs_get_set_self (ns : SchemaNs) (p : Part) (d : Value) :
    (ns.set p d).get p = some d := by cases p <;> rfl

theorem schemaNs_get_set_ne (ns : SchemaNs) (p q : Part) (d : Value) (hne : q ≠ p) :
    (ns.set p d).get q = ns.get q := by
  cases p <;> cases q <;> first | rfl | exact absurd rfl hne

theorem getPart_setPart_self (r : Req) (p : Part) (d : Value) :
    (r.setPart p d).getPart p = d := by cases p <;> rfl

theorem getPart_setPart_ne (r : Req) (p q : Part) (d : Value) (hne : q ≠ p) :
    (r.setPart p d).getPart q = r.getPart q := by
  cases p <;> cases q <;> first | rfl | exact absurd rfl hne

theorem getPart_writeSuccess_ne (var : Variant) (r : Req) (p q : Part) (d : Value)
    (hne : q ≠ p) : (writeSuccess var p d r).getPart q = r.getPart q := by
  cases var
  · cases q <;> rfl
  · exact getPart_setPart_ne r p q d hne

theorem getPart_writeSuccess_ns (r : Req) (p q : Part) (d : Value) :
    (writeSuccess Variant.ns p d r).getPart q = r.getPart q := by cases q <;> rfl

theorem validatedData_writeSuccess_self (var : Variant) (r : Req) (p : Part) (d : Value) :
    validatedData var (writeSuccess var p d r) p = some d := by
  cases var
  · simp [validatedData, writeSuccess, schemaNs_get_set_self]
  · simp [validatedData, writeSuccess, getPart_setPart_self]

theorem validatedData_writeSuccess_ne (var : Variant) (r : Req) (p q : Part) (d : Value)
    (hne : q ≠ p) : validatedData var (writeSuccess var p d r) q = validatedData var r q := by
  cases var
  · cases hs : r.schema <;>
      simp [validatedData, writeSuccess, hs, schemaNs_get_set_ne _ _ _ _ hne,
        schemaNs_get_empty]
  · simp [validatedData, writeSuccess, getPart_setPart_ne _ _ _ _ hne]

theorem runParts_nil (var : Variant) (σ : SchemaMap) (h : Handler) (res : Res)
    (r : Req) (ev : List Part) :
    runParts var σ h res [] r ev = ⟨r, res, ev, [], [none], []⟩ := rfl

theorem runParts_cons_undeclared (var : Variant) (σ : SchemaMap) (h : Handler) (res : Res)
    (p : Part) (rest : List Part) (r : Req) (ev : List Part) (hσ : σ.get p = none) :
    runParts var σ h res (p :: rest) r ev = runParts var σ h res rest r ev := by
  simp [runParts, hσ]

theorem runParts_cons_success (var : Variant) (σ : SchemaMap) (h : Handler) (res : Res)
    (p : Part) (rest : List Part) (r : Req) (ev : List Part) (v : Validator) (d : Value)
    (hσ : σ.get p = some v) (hv : v (r.getPart p) = ValidatorOutcome.returns (ParseReturn.success d)) :
    runParts var σ h res (p :: rest) r ev
      = runParts var σ h res rest (writeSuccess var p d r) (ev ++ [p]) := by
  simp [runParts, hσ, hv]

theorem runParts_cons_failure (var : Variant) (σ : SchemaMap) (h : Handler) (res : Res)
    (p : Part) (rest : List Part) (r : Req) (ev : List Part) (v : Validator) (e : VError)
    (hσ : σ.get p = some v) (hv : v (r.getPart p) = ValidatorOutcome.returns (ParseReturn.failure e)) :
    runParts var σ h res (p :: rest) r ev = handleFailure var h r res p e (ev ++ [p]) := by
  simp [runParts, hσ, hv]

theorem runParts_cons_throw (var : Variant) (σ : SchemaMap) (h : Handler) (res : Res)
    (p : Part) (rest : List Part) (r : Req) (ev : List Part) (v : Validator) (t : Thrown)
    (hσ : σ.get p = some v) (hv : v (r.getPart p) = ValidatorOutcome.throws t) :
    runParts var σ h res (p :: rest) r ev
      = handleCatch h ⟨r, res, p, catchError var t, none⟩ r (ev ++ [p]) := by
  simp [runParts, hσ, hv]

theorem handleCatch_ret (h : Handler) (ctx : HandlerCtx) (r : Req) (ev : List Part)
    (hret : (h ctx).retOrThrow = none) :
    handleCatch h ctx r ev = ⟨r, (h ctx).res, ev, [ctx], [], (h ctx).nextCalls⟩ := by
  simp [handleCatch, hret]

theorem handleCatch_throw (h : Handler) (ctx : HandlerCtx) (r : Req) (ev : List Part)
    (t : Thrown) (hthr : (h ctx).retOrThrow = some t) :
    handleCatch h ctx r ev = ⟨r, (h ctx).res, ev, [ctx], [some t], (h ctx).nextCalls⟩ := by
  simp [handleCatch, hthr]

theorem handleFailure_ret (var : Variant) (h : Handler) (r : Req) (res : Res) (p : Part)
    (e : VError) (ev : List Part)
    (hret : (h ⟨r, res, p, HandlerError.structured e, some e⟩).retOrThrow = none) :
    handleFailure var h r res p e ev
      = ⟨r, (h ⟨r, res, p, HandlerError.structured e, some e⟩).res, ev,
          [⟨r, res, p, HandlerError.structured e, some e⟩], [],
          (h ⟨r, res, p, HandlerError.structured e, some e⟩).nextCalls⟩ := by
  simp [handleFailure, hret]

theorem handleFailure_throw (var : Variant) (h : Handler) (r : Req) (res : Res) (p : Part)
    (e : VError) (ev : List Part) (t1 : Thrown)
    (hthr : (h ⟨r, res, p, HandlerError.structured e, some e⟩).retOrThrow = some t1) :
    handleFailure var h r res p e ev
      = ⟨r,
          (h ⟨r, (h ⟨r, res, p, HandlerError.structured e, some e⟩).res, p, catchError var t1, none⟩).res,
          ev,
          [⟨r, res, p, HandlerError.structured e, some e⟩,
           ⟨r, (h ⟨r, res, p, HandlerError.structured e, some e⟩).res, p, catchError var t1, none⟩],
          (match (h ⟨r, (h ⟨r, res, p, HandlerError.structured e, some e⟩).res, p, catchError var t1, none⟩).retOrThrow with
            | none => []
            | some t2 => [some t2]),
          (h ⟨r, res, p, HandlerError.structured e, some e⟩).nextCalls
            ++ (h ⟨r, (h ⟨r, res, p, HandlerError.structured e, some e⟩).res, p, catchError var t1, none⟩).nextCalls⟩ := by
  simp [handleFailure, handleCatch, hthr]

theorem handleFailure_req (var : Variant) (h : Handler) (r : Req) (res : Res) (p : Part)
    (e : VError) (ev : List Part) : (handleFailure var h r res p e ev).req = r := by
  cases hro : (h ⟨r, res, p, HandlerError.structured e, some e⟩).retOrThrow
  · rw [handleFailure_ret var h r res p e ev hro]
  · rw [handleFailure_throw var h r res p e ev _ hro]

theorem handleFailure_evaluated (var : Variant) (h : Handler) (r : Req) (res : Res) (p : Part)
    (e : VError) (ev : List Part) : (handleFailure var h r res p e ev).evaluated = ev := by
  cases hro : (h ⟨r, res, p, HandlerError.structured e, some e⟩).retOrThrow
  · rw [handleFailure_ret var h r res p e ev hro]
  · rw [handleFailure_throw var h r res p e ev _ hro]

theorem runParts_getPart_ns (σ : SchemaMap) (h : Handler) (res : Res) :
    ∀ (l : List Part) (r : Req) (ev : List Part) (q : Part),
      (runParts Variant.ns σ h res l r ev).req.getPart q = r.getPart q := by
  intro l
  induction l with
  | nil => intro r ev q; rfl
  | cons p rest ih =>
    intro r ev q
    cases hσ : σ.get p with
    | none =>
      rw [runParts_cons_undeclared Variant.ns σ h res p rest r ev hσ]
      exact ih r ev q
    | some v =>
      cases hv : v (r.getPart p) with
      | returns pr =>
        cases pr with
        | success d =>
          rw [runParts_cons_success Variant.ns σ h res p rest r ev v d hσ hv]
          rw [ih (writeSuccess Variant.ns p d r) (ev ++ [p]) q]
          exact getPart_writeSuccess_ns r p q d
        | failure e =>
          rw [runParts_cons_failure Variant.ns σ h res p rest r ev v e hσ hv]
          rw [handleFailure_req]
      | throws t =>
        rw [runParts_cons_throw Variant.ns σ h res p rest r ev v t hσ hv]
        rfl

theorem runParts_frame (var : Variant) (σ : SchemaMap) (h : Handler) (res : Res) :
    ∀ (l : List Part) (r : Req) (ev : List Part),
      (∀ x, x ∈ (runParts var σ h res l r ev).evaluated → x ∈ ev ∨ ∃ v, σ.get x = some v) ∧
      (∀ q, σ.get q = none →
        (runParts var σ h res l r ev).req.getPart q = r.getPart q ∧
        validatedData var (runParts var σ h res l r ev).req q = validatedData var r q) := by
  intro l
  induction l with
  | nil =>
    intro r ev
    exact ⟨fun x hx => Or.inl hx, fun q _ => ⟨rfl, rfl⟩⟩
  | cons p rest ih =>
    intro r ev
    cases hσ : σ.get p with
    | none =>
      rw [runParts_cons_undeclared var σ h res p rest r ev hσ]
      exact ih r ev
    | some v =>
      cases hv : v (r.getPart p) with
      | returns pr =>
        cases pr with
        | success d =>
          rw [runParts_cons_success var σ h res p rest r ev v d hσ hv]
          obtain ⟨ih1, ih2⟩ := ih (writeSuccess var p d r) (ev ++ [p])
          constructor
          · intro x hx
            rcases ih1 x hx with hx' | hx'
            · rcases List.mem_append.mp hx' with hx'' | hx''
              · exact Or.inl hx''
              · have hxp : x = p := List.mem_singleton.mp hx''
                exact Or.inr ⟨v, hxp ▸ hσ⟩
            · exact Or.inr hx'
          · intro q hq
            have hne : q ≠ p := fun hEq => by rw [hEq, hσ] at hq; exact Option.noConfusion hq
            obtain ⟨f1, f2⟩ := ih2 q hq
            exact ⟨f1.trans (getPart_writeSuccess_ne var r p q d hne),
                   f2.trans (validatedData_writeSuccess_ne var r p q d hne)⟩
        | failure e =>
          rw [runParts_cons_failure var σ h res p rest r ev v e hσ hv]
          constructor
          · intro x hx
            rw [handleFailure_evaluated] at hx
            rcases List.mem_append.mp hx with hx' | hx'
            · exact Or.inl hx'
            · have hxp : x = p := List.mem_singleton.mp hx'
              exact Or.inr ⟨v, hxp ▸ hσ⟩
          · intro q _
            rw [handleFailure_req]
            exact ⟨rfl, rfl⟩
      | throws t =>
        rw [runParts_cons_throw var σ h res p rest r ev v t hσ hv]
        constructor
        · intro x hx
          rcases List.mem_append.mp hx with hx' | hx'
          · exact Or.inl hx'
          · have hxp : x = p := List.mem_singleton.mp hx'
            exact Or.inr ⟨v, hxp ▸ hσ⟩
        · intro q _
          exact ⟨rfl, rfl⟩

theorem runParts_shape (var : Variant) (σ : SchemaMap) (h : Handler) (res : Res) :
    ∀ (l : List Part) (r : Req) (ev : List Part),
      ((runParts var σ h res l r ev).handlerCalls = [] ∧
        (runParts var σ h res l r ev).dispNext = [none] ∧
        (runParts var σ h res l r ev).handlerNext = [] ∧
        (runParts var σ h res l r ev).res = res) ∨
      (∃ ctx, (runParts var σ h res l r ev).handlerCalls = [ctx] ∧ ctx.res = res ∧
        (h ctx).retOrThrow = none ∧
        (runParts var σ h res l r ev).dispNext = [] ∧
        (runParts var σ h res l r ev).res = (h ctx).res ∧
        (runParts var σ h res l r ev).handlerNext = (h ctx).nextCalls) ∨
      (∃ ctx t, (runParts var σ h res l r ev).handlerCalls = [ctx] ∧ ctx.res = res ∧
        ctx.result = none ∧ (h ctx).retOrThrow = some t ∧
        (runParts var σ h res l r ev).dispNext = [some t] ∧
        (runParts var σ h res l r ev).res = (h ctx).res ∧
        (runParts var σ h res l r ev).handlerNext = (h ctx).nextCalls) ∨
      (∃ ctx1 ctx2 t1, (runParts var σ h res l r ev).handlerCalls = [ctx1, ctx2] ∧
        ctx1.res = res ∧ (∃ e, ctx1.result = some e) ∧
        (h ctx1).retOrThrow = some t1 ∧
        ctx2 = ⟨ctx1.req, (h ctx1).res, ctx1.part, catchError var t1, none⟩ ∧
        (runParts var σ h res l r ev).res = (h ctx2).res ∧
        (runParts var σ h res l r ev).handlerNext = (h ctx1).nextCalls ++ (h ctx2).nextCalls ∧
        ((h ctx2).retOrThrow = none → (runParts var σ h res l r ev).dispNext = []) ∧
        (∀ t2, (h ctx2).retOrThrow = some t2 → (runParts var σ h res l r ev).dispNext = [some t2])) := by
  intro l
  induction l with
  | nil =>
    intro r ev
    exact Or.inl ⟨rfl, rfl, rfl, rfl⟩
  | cons p rest ih =>
    intro r ev
    cases hσ : σ.get p with
    | none =>
      rw [runParts_cons_undeclared var σ h res p rest r ev hσ]
      exact ih r ev
    | some v =>
      cases hv : v (r.getPart p) with
      | returns pr =>
        cases pr with
        | success d =>
          rw [runParts_cons_success var σ h res p rest r ev v d hσ hv]
          exact ih (writeSuccess var p d r) (ev ++ [p])
        | failure e =>
          rw [runParts_cons_failure var σ h res p rest r ev v e hσ hv]
          cases hro : (h ⟨r, res, p, HandlerError.structured e, some e⟩).retOrThrow with
          | none =>
            rw [handleFailure_ret var h r res p e (ev ++ [p]) hro]
            exact Or.inr (Or.inl ⟨⟨r, res, p, HandlerError.structured e, some e⟩,
              rfl, rfl, hro, rfl, rfl, rfl⟩)
          | some t1 =>
            rw [handleFailure_throw var h r res p e (ev ++ [p]) t1 hro]
            refine Or.inr (Or.inr (Or.inr
              ⟨⟨r, res, p, HandlerError.structured e, some e⟩,
               ⟨r, (h ⟨r, res, p, HandlerError.structured e, some e⟩).res, p, catchError var t1, none⟩,
               t1, rfl, rfl, ⟨e, rfl⟩, hro, rfl, rfl, rfl, ?_, ?_⟩))
            · intro h0; simp [h0]
            · intro t2 h2; simp [h2]
      | throws t =>
        rw [runParts_cons_throw var σ h res p rest r ev v t hσ hv]
        cases hro : (h ⟨r, res, p, catchError var t, none⟩).retOrThrow with
        | none =>
          rw [handleCatch_ret h ⟨r, res, p, catchError var t, none⟩ r (ev ++ [p]) hro]
          exact Or.inr (Or.inl ⟨⟨r, res, p, catchError var t, none⟩, rfl, rfl, hro, rfl, rfl, rfl⟩)
        | some t2 =>
          rw [handleCatch_throw h ⟨r, res, p, catchError var t, none⟩ r (ev ++ [p]) t2 hro]
          exact Or.inr (Or.inr (Or.inl ⟨⟨r, res, p, catchError var t, none⟩, t2,
            rfl, rfl, rfl, hro, rfl, rfl, rfl⟩))

theorem runParts_success (var : Variant) (σ : SchemaMap) (h : Handler) (res : Res) (r0 : Req) :
    ∀ (l : List Part) (r : Req) (ev : List Part),
      l.Nodup →
      (∀ q, q ∈ l → r.getPart q = r0.getPart q) →
      (∀ q, q ∈ l → partFailsB σ r0 q = false) →
      ((runParts var σ h res l r ev).handlerCalls = [] ∧
       (runParts var σ h res l r ev).dispNext = [none] ∧
       (runParts var σ h res l r ev).handlerNext = [] ∧
       (runParts var σ h res l r ev).res = res ∧
       (∀ q v, q ∈ l → σ.get q = some v →
          ∃ d, v (r0.getPart q) = ValidatorOutcome.returns (ParseReturn.success d) ∧
            validatedData var (runParts var σ h res l r ev).req q = some d) ∧
       (∀ q, q ∉ l →
          validatedData var (runParts var σ h res l r ev).req q = validatedData var r q ∧
          (runParts var σ h res l r ev).req.getPart q = r.getPart q) ∧
       (∀ q, q ∈ l → σ.get q = none →
          validatedData var (runParts var σ h res l r ev).req q = validatedData var r q ∧
          (runParts var σ h res l r ev).req.getPart q = r.getPart q)) := by
  intro l
  induction l with
  | nil =>
    intro r ev _ _ _
    refine ⟨rfl, rfl, rfl, rfl, ?_, ?_, ?_⟩
    · intro q v hq; exact absurd hq (List.not_mem_nil q)
    · intro q _; exact ⟨rfl, rfl⟩
    · intro q hq; exact absurd hq (List.not_mem_nil q)
  | cons p rest ih =>
    intro r ev hnd hpre hok
    have hnp : p ∉ rest := (List.nodup_cons.mp hnd).1
    have hndr : rest.Nodup := (List.nodup_cons.mp hnd).2
    cases hσ : σ.get p with
    | none =>
      rw [runParts_cons_undeclared var σ h res p rest r ev hσ]
      obtain ⟨c1, c2, c3, c4, c5, c6, c7⟩ :=
        ih r ev hndr (fun q hq => hpre q (List.mem_cons_of_mem p hq))
          (fun q hq => hok q (List.mem_cons_of_mem p hq))
      refine ⟨c1, c2, c3, c4, ?_, ?_, ?_⟩
      · intro q v hq hv
        rcases List.mem_cons.mp hq with rfl | hq'
        · rw [hσ] at hv; exact Option.noConfusion hv
        · exact c5 q v hq' hv
      · intro q hq
        exact c6 q (fun hm => hq (List.mem_cons_of_mem p hm))
      · intro q hq hq0
        rcases List.mem_cons.mp hq with rfl | hq'
        · exact c6 q hnp
        · exact c7 q hq' hq0
    | some v =>
      have hfp : partFailsB σ r0 p = false := hok p (List.mem_cons_self p rest)
      simp only [partFailsB, hσ] at hfp
      have hvr : v (r.getPart p) = v (r0.getPart p) := by
        rw [hpre p (List.mem_cons_self p rest)]
      cases hv : v (r0.getPart p) with
      | returns pr =>
        cases pr with
        | success d =>
          rw [runParts_cons_success var σ h res p rest r ev v d hσ (hvr.trans hv)]
          obtain ⟨c1, c2, c3, c4, c5, c6, c7⟩ :=
            ih (writeSuccess var p d r) (ev ++ [p]) hndr
              (fun q hq => by
                have hne : q ≠ p := fun hEq => hnp (hEq ▸ hq)
                rw [getPart_writeSuccess_ne var r p q d hne]
                exact hpre q (List.mem_cons_of_mem p hq))
              (fun q hq => hok q (List.mem_cons_of_mem p hq))
          refine ⟨c1, c2, c3, c4, ?_, ?_, ?_⟩
          · intro q v' hq hv'
            rcases List.mem_cons.mp hq with rfl | hq'
            · rw [hσ] at hv'
              obtain rfl : v = v' := Option.some.inj hv'
              refine ⟨d, hv, ?_⟩
              rw [(c6 q hnp).1]
              exact validatedData_writeSuccess_self var r q d
            · exact c5 q v' hq' hv'
          · intro q hq
            have hq' : q ∉ rest := fun hmem => hq (List.mem_cons_of_mem p hmem)
            have hne : q ≠ p := fun hEq => hq (hEq ▸ List.mem_cons_self q rest)
            obtain ⟨f1, f2⟩ := c6 q hq'
            exact ⟨f1.trans (validatedData_writeSuccess_ne var r p q d hne),
                   f2.trans (getPart_writeSuccess_ne var r p q d hne)⟩
          · intro q hq hq0
            rcases List.mem_cons.mp hq with rfl | hq'
            · rw [hσ] at hq0; exact Option.noConfusion hq0
            · have hne : q ≠ p := fun hEq => hnp (hEq ▸ hq')
              obtain ⟨f1, f2⟩ := c7 q hq' hq0
              exact ⟨f1.trans (validatedData_writeSuccess_ne var r p q d hne),
                     f2.trans (getPart_writeSuccess_ne var r p q d hne)⟩
        | failure e =>
          rw [hv] at hfp
          simp [outcomeFails] at hfp
      | throws t =>
        rw [hv] at hfp
        simp [outcomeFails] at hfp

theorem runParts_firstFail (var : Variant) (σ : SchemaMap) (h : Handler) (res : Res)
    (r0 : Req) (p : Part) :
    ∀ (l : List Part) (r : Req) (ev : List Part),
      List.Pairwise (fun a b => a.idx < b.idx) l →
      (∀ q, q ∈ l → r.getPart q = r0.getPart q) →
      p ∈ l →
      partFailsB σ r0 p = true →
      (∀ q, q ∈ l → q.idx < p.idx → partFailsB σ r0 q = false) →
      ∃ v, σ.get p = some v ∧
        ((∀ ctx, ctx ∈ (runParts var σ h res l r ev).handlerCalls → ctx.part = p) ∧
         (runParts var σ h res l r ev).handlerCalls ≠ [] ∧
         (∀ ctx, ((runParts var σ h res l r ev).handlerCalls).head? = some ctx →
            ctx.res = res ∧
            (∀ e, v (r0.getPart p) = ValidatorOutcome.returns (ParseReturn.failure e) →
               ctx.error = HandlerError.structured e ∧ ctx.result = some e) ∧
            (∀ t, v (r0.getPart p) = ValidatorOutcome.throws t →
               ctx.error = catchError var t ∧ ctx.result = none) ∧
            ((h ctx).retOrThrow = none → (runParts var σ h res l r ev).handlerCalls = [ctx])) ∧
         (∀ t, v (r0.getPart p) = ValidatorOutcome.throws t →
            ∃ ctx, (runParts var σ h res l r ev).handlerCalls = [ctx]) ∧
         (∀ x, x ∈ (runParts var σ h res l r ev).evaluated → x ∈ ev ∨ (x ∈ l ∧ x.idx ≤ p.idx)) ∧
         (∀ q v', q ∈ l → q.idx < p.idx → σ.get q = some v' →
            ∃ d, v' (r0.getPart q) = ValidatorOutcome.returns (ParseReturn.success d) ∧
              validatedData var (runParts var σ h res l r ev).req q = some d) ∧
         (∀ q, (q ∈ l → p.idx ≤ q.idx ∨ σ.get q = none) →
            validatedData var (runParts var σ h res l r ev).req q = validatedData var r q ∧
            (runParts var σ h res l r ev).req.getPart q = r.getPart q)) := by
  intro l
  induction l with
  | nil =>
    intro r ev _ _ hp
    exact absurd hp (List.not_mem_nil p)
  | cons x rest ih =>
    intro r ev hpw hpre hp hfail hbef
    have hxlt : ∀ b ∈ rest, x.idx < b.idx := (List.pairwise_cons.mp hpw).1
    have hpwr : List.Pairwise (fun a b => a.idx < b.idx) rest := (List.pairwise_cons.mp hpw).2
    rcases List.mem_cons.mp hp with rfl | hpr
    · -- the head is the first failing part
      cases hσ : σ.get p with
      | none =>
        simp only [partFailsB, hσ] at hfail
        exact Bool.noConfusion hfail
      | some v =>
        refine ⟨v, rfl, ?_⟩
        have hvr : v (r.getPart p) = v (r0.getPart p) := by
          rw [hpre p (List.mem_cons_self p rest)]
        simp only [partFailsB, hσ] at hfail
        cases hv : v (r0.getPart p) with
        | returns pr =>
          cases pr with
          | success d => rw [hv] at hfail; simp [outcomeFails] at hfail
          | failure e =>
            rw [runParts_cons_failure var σ h res p rest r ev v e hσ (hvr.trans hv)]
            cases hro : (h ⟨r, res, p, HandlerError.structured e, some e⟩).retOrThrow with
            | none =>
              rw [handleFailure_ret var h r res p e (ev ++ [p]) hro]
              refine ⟨?_, ?_, ?_, ?_, ?_, ?_, ?_⟩
              · intro ctx hctx
                have hEq : ctx = ⟨r, res, p, HandlerError.structured e, some e⟩ :=
                  List.mem_singleton.mp hctx
                rw [hEq]
              · simp
              · intro ctx hctx
                rw [List.head?_cons] at hctx
                obtain rfl := Option.some.inj hctx
                refine ⟨rfl, ?_, ?_, ?_⟩
                · intro e' he'
                  injection he' with h1
                  injection h1 with h2
                  subst h2
                  exact ⟨rfl, rfl⟩
                · intro t ht
                  exact ValidatorOutcome.noConfusion ht
                · intro _; rfl
              · intro t ht
                exact ValidatorOutcome.noConfusion ht
              · intro y hy
                rcases List.mem_append.mp hy with hy' | hy'
                · exact Or.inl hy'
                · have hEq : y = p := List.mem_singleton.mp hy'
                  exact Or.inr ⟨hEq ▸ List.mem_cons_self p rest, hEq ▸ Nat.le_refl p.idx⟩
              · intro q v' hq hlt _
                rcases List.mem_cons.mp hq with rfl | hq'
                · exact absurd hlt (Nat.lt_irrefl q.idx)
                · exact absurd hlt (Nat.lt_asymm (hxlt q hq'))
              · intro q _
                exact ⟨rfl, rfl⟩
            | some t1 =>
              rw [handleFailure_throw var h r res p e (ev ++ [p]) t1 hro]
              refine ⟨?_, ?_, ?_, ?_, ?_, ?_, ?_⟩
              · intro ctx hctx
                rcases List.mem_cons.mp hctx with hEq | hctx'
                · rw [hEq]
                · have hEq : ctx =
                      ⟨r, (h ⟨r, res, p, HandlerError.structured e, some e⟩).res, p,
                        catchError var t1, none⟩ := List.mem_singleton.mp hctx'
                  rw [hEq]
              · simp
              · intro ctx hctx
                rw [List.head?_cons] at hctx
                obtain rfl := Option.some.inj hctx
                refine ⟨rfl, ?_, ?_, ?_⟩
                · intro e' he'
                  injection he' with h1
                  injection h1 with h2
                  subst h2
                  exact ⟨rfl, rfl⟩
                · intro t ht
                  exact ValidatorOutcome.noConfusion ht
                · intro h0
                  rw [hro] at h0
                  exact Option.noConfusion h0
              · intro t ht
                exact ValidatorOutcome.noConfusion ht
              · intro y hy
                rcases List.mem_append.mp hy with hy' | hy'
                · exact Or.inl hy'
                · have hEq : y = p := List.mem_singleton.mp hy'
                  exact Or.inr ⟨hEq ▸ List.mem_cons_self p rest, hEq ▸ Nat.le_refl p.idx⟩
              · intro q v' hq hlt _
                rcases List.mem_cons.mp hq with rfl | hq'
                · exact absurd hlt (Nat.lt_irrefl q.idx)
                · exact absurd hlt (Nat.lt_asymm (hxlt q hq'))
              · intro q _
                exact ⟨rfl, rfl⟩
        | throws t =>
          rw [runParts_cons_throw var σ h res p rest r ev v t hσ (hvr.trans hv)]
          refine ⟨?_, ?_, ?_, ?_, ?_, ?_, ?_⟩
          · intro ctx hctx
            have hEq : ctx = ⟨r, res, p, catchError var t, none⟩ :=
              List.mem_singleton.mp hctx
            rw [hEq]
          · simp [handleCatch]
          · intro ctx hctx
            have hctx' : some (⟨r, res, p, catchError var t, none⟩ : HandlerCtx) = some ctx := hctx
            obtain rfl := Option.some.inj hctx'
            refine ⟨rfl, ?_, ?_, ?_⟩
            · intro e' he'
              exact ValidatorOutcome.noConfusion he'
            · intro t' ht
              injection ht with h1
              subst h1
              exact ⟨rfl, rfl⟩
            · intro _; rfl
          · intro t' _
            exact ⟨⟨r, res, p, catchError var t, none⟩, rfl⟩
          · intro y hy
            rcases List.mem_append.mp hy with hy' | hy'
            · exact Or.inl hy'
            · have hEq : y = p := List.mem_singleton.mp hy'
              exact Or.inr ⟨hEq ▸ List.mem_cons_self p rest, hEq ▸ Nat.le_refl p.idx⟩
          · intro q v' hq hlt _
            rcases List.mem_cons.mp hq with rfl | hq'
            · exact absurd hlt (Nat.lt_irrefl q.idx)
            · exact absurd hlt (Nat.lt_asymm (hxlt q hq'))
          · intro q _
            exact ⟨rfl, rfl⟩
    · -- the first failing part lies deeper in the list
      have hxp : x.idx < p.idx := hxlt p hpr
      have hfx : partFailsB σ r0 x = false := hbef x (List.mem_cons_self x rest) hxp
      cases hσx : σ.get x with
      | none =>
        rw [runParts_cons_undeclared var σ h res x rest r ev hσx]
        obtain ⟨v, hσp, c1, c2, c3, c4, c5, c6, c7⟩ :=
          ih r ev hpwr (fun q hq => hpre q (List.mem_cons_of_mem x hq)) hpr hfail
            (fun q hq hlt => hbef q (List.mem_cons_of_mem x hq) hlt)
        refine ⟨v, hσp, c1, c2, c3, c4, ?_, ?_, ?_⟩
        · intro y hy
          rcases c5 y hy with hy' | ⟨hmem, hle⟩
          · exact Or.inl hy'
          · exact Or.inr ⟨List.mem_cons_of_mem x hmem, hle⟩
        · intro q v' hq hlt hv'
          rcases List.mem_cons.mp hq with rfl | hq'
          · rw [hσx] at hv'; exact Option.noConfusion hv'
          · exact c6 q v' hq' hlt hv'
        · intro q hq
          exact c7 q (fun hmem => hq (List.mem_cons_of_mem x hmem))
      | some vx =>
        simp only [partFailsB, hσx] at hfx
        cases hvx : vx (r0.getPart x) with
        | returns pr =>
          cases pr with
          | success dx =>
            have hvrx : vx (r.getPart x) = vx (r0.getPart x) := by
              rw [hpre x (List.mem_cons_self x rest)]
            rw [runParts_cons_success var σ h res x rest r ev vx dx hσx (hvrx.trans hvx)]
            have hnex : ∀ q ∈ rest, q ≠ x :=
              fun q hq hEq => Nat.lt_irrefl x.idx (hEq ▸ hxlt q hq)
            obtain ⟨v, hσp, c1, c2, c3, c4, c5, c6, c7⟩ :=
              ih (writeSuccess var x dx r) (ev ++ [x]) hpwr
                (fun q hq => by
                  rw [getPart_writeSuccess_ne var r x q dx (hnex q hq)]
                  exact hpre q (List.mem_cons_of_mem x hq))
                hpr hfail
                (fun q hq hlt => hbef q (List.mem_cons_of_mem x hq) hlt)
            refine ⟨v, hσp, c1, c2, c3, c4, ?_, ?_, ?_⟩
            · intro y hy
              rcases c5 y hy with hy' | ⟨hmem, hle⟩
              · rcases List.mem_append.mp hy' with hy'' | hy''
                · exact Or.inl hy''
                · have hEq : y = x := List.mem_singleton.mp hy''
                  exact Or.inr ⟨hEq ▸ List.mem_cons_self x rest, hEq ▸ Nat.le_of_lt hxp⟩
              · exact Or.inr ⟨List.mem_cons_of_mem x hmem, hle⟩
            · intro q v' hq hlt hv'
              rcases List.mem_cons.mp hq with rfl | hq'
              · rw [hσx] at hv'
                obtain rfl : vx = v' := Option.some.inj hv'
                refine ⟨dx, hvx, ?_⟩
                have hfr := c7 q (fun hmem => absurd (hxlt q hmem) (Nat.lt_irrefl q.idx))
                rw [hfr.1]
                exact validatedData_writeSuccess_self var r q dx
              · exact c6 q v' hq' hlt hv'
            · intro q hq
              by_cases hqx : q = x
              · subst hqx
                rcases hq (List.mem_cons_self q rest) with hle | hnone
                · exact absurd hxp (Nat.not_lt.mpr hle)
                · rw [hσx] at hnone; exact Option.noConfusion hnone
              · obtain ⟨f1, f2⟩ := c7 q (fun hmem => hq (List.mem_cons_of_mem x hmem))
                exact ⟨f1.trans (validatedData_writeSuccess_ne var r x q dx hqx),
                       f2.trans (getPart_writeSuccess_ne var r x q dx hqx)⟩
          | failure e => rw [hvx] at hfx; simp [outcomeFails] at hfx
        | throws t => rw [hvx] at hfx; simp [outcomeFails] at hfx

theorem partOrder_pairwise : List.Pairwise (fun a b => a.idx < b.idx) partOrder := by
  decide

theorem partOrder_nodup : partOrder.Nodup := by decide

theorem mem_partOrder (p : Part) : p ∈ partOrder := by cases p <;> decide

theorem validate_eq (var : Variant) (σ : SchemaMap) (h : Option Handler) (r : Req) (res : Res) :
    validate var σ h r res
      = runParts var σ (h.getD defaultErrorHandler) res partOrder (initReq var r) [] := rfl

theorem initReq_pre (var : Variant) (r : Req) :
    ∀ q, q ∈ partOrder → (initReq var r).getPart q = r.getPart q :=
  fun q _ => getPart_initReq var r q

theorem defaultErrorHandler_result_some (ctx : HandlerCtx) (e : VError)
    (he : ctx.result = some e) :
    defaultErrorHandler ctx
      = ⟨⟨some 400, some (RespBody.errorWithCause e.message e.cause)⟩, [], none⟩ := by
  simp [defaultErrorHandler, he]

theorem defaultErrorHandler_result_none (ctx : HandlerCtx) (he : ctx.result = none) :
    defaultErrorHandler ctx
      = ⟨⟨some 400, some (RespBody.errorOnly (jsStringOfError ctx.error))⟩, [], none⟩ := by
  simp [defaultErrorHandler, he]

theorem defaultErrorHandler_ret (ctx : HandlerCtx) :
    (defaultErrorHandler ctx).retOrThrow = none := by
  cases he : ctx.result
  · rw [defaultErrorHandler_result_none ctx he]
  · rw [defaultErrorHandler_result_some ctx _ he]

/-- C2: for every schema map (including the empty one) and every request whose
declared parts all satisfy their schemas, the middleware calls the continuation
exactly once with no argument, never invokes the error handler, and stores each
declared part's normalized output (not the raw value) as its validated data. -/
theorem c2_all_success (var : Variant) (σ : SchemaMap) (h : Option Handler)
    (r : Req) (res : Res)
    (hok : ∀ q : Part, partFailsB σ r q = false) :
    (validate var σ h r res).handlerCalls = [] ∧
    (validate var σ h r res).dispNext = [none] ∧
    (validate var σ h r res).handlerNext = [] ∧
    (∀ p v, σ.get p = some v →
       ∃ d, v (r.getPart p) = ValidatorOutcome.returns (ParseReturn.success d) ∧
         validatedData var (validate var σ h r res).req p = some d) := by
  rw [validate_eq]
  obtain ⟨c1, c2, c3, _, c5, _, _⟩ :=
    runParts_success var σ (h.getD defaultErrorHandler) res r partOrder
      (initReq var r) [] partOrder_nodup (initReq_pre var r) (fun q _ => hok q)
  exact ⟨c1, c2, c3, fun p v hv => c5 p v (mem_partOrder p) hv⟩

theorem c2_witness :
    (∀ q : Part, partFailsB ⟨some okTwo, none, none, none⟩ sampleReq q = false) ∧
    (validate Variant.ns ⟨some okTwo, none, none, none⟩ none sampleReq sampleRes).handlerCalls = [] ∧
    (validate Variant.ns ⟨some okTwo, none, none, none⟩ none sampleReq sampleRes).dispNext = [none] ∧
    validatedData Variant.ns
      (validate Variant.ns ⟨some okTwo, none, none, none⟩ none sampleReq sampleRes).req
      Part.body = some (Value.vInt 2) := by
  have hok : ∀ q : Part, partFailsB ⟨some okTwo, none, none, none⟩ sampleReq q = false := by
    decide
  obtain ⟨c1, c2, _, c4⟩ :=
    c2_all_success Variant.ns ⟨some okTwo, none, none, none⟩ none sampleReq sampleRes hok
  obtain ⟨d, hd, hvd⟩ := c4 Part.body okTwo rfl
  obtain rfl : d = Value.vInt 2 := by
    injection hd with h1
    injection h1 with h2
    exact h2.symm
  exact ⟨hok, c1, c2, hvd⟩

/-- C8: each of the four convenience constructors produces exactly the
middleware obtained from validate with the corresponding single-part schema
map and the same optional error handler, observationally and definitionally. -/
theorem c8_single_part_specializations (var : Variant) (s : Validator)
    (h : Option Handler) (r : Req) (res : Res) :
    validateBody var s h r res = validate var ⟨some s, none, none, none⟩ h r res ∧
    validateQuery var s h r res = validate var ⟨none, some s, none, none⟩ h r res ∧
    validateParams var s h r res = validate var ⟨none, none, some s, none⟩ h r res ∧
    validateHeaders var s h r res = validate var ⟨none, none, none, some s⟩ h r res :=
  ⟨rfl, rfl, rfl, rfl⟩

theorem getLast?_one {α : Type} (a : α) : ([a] : List α).getLast? = some a := rfl

theorem getLast?_two {α : Type} (a b : α) : ([a, b] : List α).getLast? = some b := rfl

theorem validate_handlerCalls_le_two (var : Variant) (σ : SchemaMap) (h : Option Handler)
    (r : Req) (res : Res) : (validate var σ h r res).handlerCalls.length ≤ 2 := by
  rw [validate_eq]
  rcases runParts_shape var σ (h.getD defaultErrorHandler) res partOrder (initReq var r) [] with
      ⟨hc, _, _, _⟩ | ⟨ctx, hc, _, _, _, _, _⟩ | ⟨ctx, t, hc, _, _, _, _, _, _⟩
      | ⟨ctx1, ctx2, t1, hc, _, _, _, _, _, _, _, _⟩ <;> rw [hc] <;> simp

/-- C1 counterexample: a middleware whose error handler throws, applied to a
request whose body fails validation, invokes the error handler twice (the
failure-path invocation throws and the per-part catch re-invokes it), so the
handler is not invoked exactly once. -/
theorem c1_counterexample :
    partFailsB ⟨some failBad, none, none, none⟩ sampleReq Part.body = true ∧
    (validate Variant.ns ⟨some failBad, none, none, none⟩ (some crashingHandler)
        sampleReq sampleRes).handlerCalls.length = 2 := ⟨rfl, rfl⟩

/-- C1 (amended): when some declared part fails and p is the earliest failing
part in body, query, params, headers order, every error-handler invocation
carries part p, the handler is invoked once or twice (exactly once whenever
the first invocation does not throw), and no part after p is ever evaluated. -/
theorem c1_earliest_failure (var : Variant) (σ : SchemaMap) (h : Option Handler)
    (r : Req) (res : Res) (p : Part)
    (hfail : partFailsB σ r p = true)
    (hmin : ∀ q : Part, q.idx < p.idx → partFailsB σ r q = false) :
    (∀ ctx, ctx ∈ (validate var σ h r res).handlerCalls → ctx.part = p) ∧
    1 ≤ (validate var σ h r res).handlerCalls.length ∧
    (validate var σ h r res).handlerCalls.length ≤ 2 ∧
    (∀ ctx, ((validate var σ h r res).handlerCalls).head? = some ctx →
       ((h.getD defaultErrorHandler) ctx).retOrThrow = none →
       (validate var σ h r res).handlerCalls = [ctx]) ∧
    (∀ q, q ∈ (validate var σ h r res).evaluated → q.idx ≤ p.idx) := by
  have hle := validate_handlerCalls_le_two var σ h r res
  rw [validate_eq] at hle ⊢
  obtain ⟨v, hσ, k1, k2, k3, k4, k5, k6, k7⟩ :=
    runParts_firstFail var σ (h.getD defaultErrorHandler) res r p partOrder
      (initReq var r) [] partOrder_pairwise (initReq_pre var r) (mem_partOrder p) hfail
      (fun q _ hlt => hmin q hlt)
  refine ⟨k1, ?_, hle, ?_, ?_⟩
  · exact List.length_pos.mpr k2
  · intro ctx hctx hro
    exact (k3 ctx hctx).2.2.2 hro
  · intro q hq
    rcases k5 q hq with hq' | ⟨_, hle'⟩
    · exact absurd hq' (List.not_mem_nil q)
    · exact hle'

theorem c1_witness :
    partFailsB ⟨some okTwo, some failBad, none, none⟩ sampleReq Part.query = true ∧
    (∀ ctx, ctx ∈ (validate Variant.ns ⟨some okTwo, some failBad, none, none⟩ none
        sampleReq sampleRes).handlerCalls → ctx.part = Part.query) ∧
    (∀ q, q ∈ (validate Variant.ns ⟨some okTwo, some failBad, none, none⟩ none
        sampleReq sampleRes).evaluated → q.idx ≤ Part.query.idx) := by
  have hmin : ∀ q : Part, q.idx < Part.query.idx →
      partFailsB ⟨some okTwo, some failBad, none, none⟩ sampleReq q = false := by decide
  obtain ⟨k1, _, _, _, k5⟩ :=
    c1_earliest_failure Variant.ns ⟨some okTwo, some failBad, none, none⟩ none sampleReq
      sampleRes Part.query rfl hmin
  exact ⟨rfl, k1, k5⟩

/-- C3 counterexample: with an error handler that throws, a failing request
makes the dispatcher invoke the error handler twice and then the continuation
with an error, so it does not invoke exactly one of the three outcomes. -/
theorem c3_counterexample :
    (validate Variant.ns ⟨some failBad, none, none, none⟩ (some crashingHandler)
        sampleReq sampleRes).handlerCalls.length = 2 ∧
    (validate Variant.ns ⟨some failBad, none, none, none⟩ (some crashingHandler)
        sampleReq sampleRes).dispNext = [some (Thrown.errObj "crash2")] ∧
    ¬((validate Variant.ns ⟨some failBad, none, none, none⟩ (some crashingHandler)
        sampleReq sampleRes).handlerCalls.length
      + (validate Variant.ns ⟨some failBad, none, none, none⟩ (some crashingHandler)
        sampleReq sampleRes).dispNext.length = 1) := ⟨rfl, rfl, by decide⟩

/-- C3 (amended): the error handler is invoked at most twice per request, a
second invocation occurring only when the first one throws; with no handler
invocation the dispatcher calls the continuation with no argument exactly
once; after the last handler invocation the dispatcher calls the continuation
exactly when that invocation threw, passing the thrown fault. -/
theorem c3_dispatch_discipline (var : Variant) (σ : SchemaMap) (h : Option Handler)
    (r : Req) (res : Res) :
    (validate var σ h r res).handlerCalls.length ≤ 2 ∧
    ((validate var σ h r res).handlerCalls = [] →
       (validate var σ h r res).dispNext = [none]) ∧
    (∀ ctx, ((validate var σ h r res).handlerCalls).getLast? = some ctx →
       (validate var σ h r res).dispNext
         = (match ((h.getD defaultErrorHandler) ctx).retOrThrow with
            | none => []
            | some t => [some t])) ∧
    (∀ ctx1 ctx2, (validate var σ h r res).handlerCalls = [ctx1, ctx2] →
       ∃ t1, ((h.getD defaultErrorHandler) ctx1).retOrThrow = some t1 ∧
         ctx2.result = none) := by
  have hle := validate_handlerCalls_le_two var σ h r res
  rw [validate_eq] at hle ⊢
  have hshape := runParts_shape var σ (h.getD defaultErrorHandler) res partOrder
    (initReq var r) []
  refine ⟨hle, ?_, ?_, ?_⟩
  · intro h0
    rcases hshape with ⟨hc, hd, _, _⟩ | ⟨ctx, hc, _, _, _, _, _⟩
        | ⟨ctx, t, hc, _, _, _, _, _, _⟩ | ⟨ctx1, ctx2, t1, hc, _, _, _, _, _, _, _, _⟩
    · exact hd
    · rw [hc] at h0; exact List.noConfusion h0
    · rw [hc] at h0; exact List.noConfusion h0
    · rw [hc] at h0; exact List.noConfusion h0
  · intro ctx' hlast
    rcases hshape with ⟨hc, hd, _, _⟩ | ⟨ctx, hc, _, hro, hd, _, _⟩
        | ⟨ctx, t, hc, _, _, hro, hd, _, _⟩
        | ⟨ctx1, ctx2, t1, hc, _, _, hro1, hctx2, _, _, hd0, hdt⟩
    · rw [hc] at hlast; exact Option.noConfusion hlast
    · rw [hc, getLast?_one] at hlast
      obtain rfl := Option.some.inj hlast
      rw [hro]
      exact hd
    · rw [hc, getLast?_one] at hlast
      obtain rfl := Option.some.inj hlast
      rw [hro]
      exact hd
    · rw [hc, getLast?_two] at hlast
      obtain rfl := Option.some.inj hlast
      cases hro2 : ((h.getD defaultErrorHandler) ctx2).retOrThrow with
      | none => exact hd0 hro2
      | some t2 => exact hdt t2 hro2
  · intro ctx1' ctx2' hc'
    rcases hshape with ⟨hc, _, _, _⟩ | ⟨ctx, hc, _, _, _, _, _⟩
        | ⟨ctx, t, hc, _, _, _, _, _, _⟩
        | ⟨ctx1, ctx2, t1, hc, _, _, hro1, hctx2, _, _, _, _⟩
    · rw [hc] at hc'; exact List.noConfusion hc'
    · rw [hc] at hc'
      injection hc' with h1 h2
      exact List.noConfusion h2
    · rw [hc] at hc'
      injection hc' with h1 h2
      exact List.noConfusion h2
    · rw [hc] at hc'
      injection hc' with h1 h2
      injection h2 with h3 h4
      subst h1
      subst h3
      exact ⟨t1, hro1, by rw [hctx2]⟩

theorem c3_witness :
    (validate Variant.wt ⟨some failBad, none, none, none⟩ none sampleReq sampleRes).dispNext
      = [] := by
  obtain ⟨_, _, k3, _⟩ :=
    c3_dispatch_discipline Variant.wt ⟨some failBad, none, none, none⟩ none sampleReq sampleRes
  exact k3 ⟨sampleReq, sampleRes, Part.body, HandlerError.structured ⟨"bad", none⟩,
    some ⟨"bad", none⟩⟩ rfl

/-- C7 counterexample: when the error handler throws on its validation-failure
invocation, that fault (crash1) is not forwarded to the continuation; the
dispatcher instead re-invokes the handler and only the second fault (crash2)
reaches the continuation. -/
theorem c7_counterexample :
    (crashingHandler ⟨initReq Variant.wt sampleReq, sampleRes, Part.body,
        HandlerError.structured ⟨"bad", none⟩, some ⟨"bad", none⟩⟩).retOrThrow
      = some (Thrown.errObj "crash1") ∧
    (validate Variant.wt ⟨some failBad, none, none, none⟩ (some crashingHandler)
        sampleReq sampleRes).handlerCalls.length = 2 ∧
    (validate Variant.wt ⟨some failBad, none, none, none⟩ (some crashingHandler)
        sampleReq sampleRes).dispNext = [some (Thrown.errObj "crash2")] ∧
    some (Thrown.errObj "crash1") ∉
      (validate Variant.wt ⟨some failBad, none, none, none⟩ (some crashingHandler)
        sampleReq sampleRes).dispNext := ⟨rfl, rfl, rfl, by decide⟩

/-- C7 (amended): a fault thrown by the error handler on a catch-path
invocation (no result in the context) is forwarded to the continuation as the
error argument; a fault thrown on the validation-failure invocation leads to a
second handler invocation, and only a fault from that second invocation is
forwarded; when the last handler invocation returns normally the dispatcher
invokes nothing further and leaves the handler's response state and forwarded
continuation calls untouched. -/
theorem c7_fault_forwarding (var : Variant) (σ : SchemaMap) (h : Option Handler)
    (r : Req) (res : Res) :
    (∀ ctx, (validate var σ h r res).handlerCalls = [ctx] → ctx.result = none →
       ∀ t, ((h.getD defaultErrorHandler) ctx).retOrThrow = some t →
         (validate var σ h r res).dispNext = [some t]) ∧
    (∀ ctx, ((validate var σ h r res).handlerCalls).getLast? = some ctx →
       ((h.getD defaultErrorHandler) ctx).retOrThrow = none →
       (validate var σ h r res).dispNext = [] ∧
       (validate var σ h r res).res = ((h.getD defaultErrorHandler) ctx).res) ∧
    (∀ ctx1 ctx2, (validate var σ h r res).handlerCalls = [ctx1, ctx2] →
       ∃ t1, ((h.getD defaultErrorHandler) ctx1).retOrThrow = some t1 ∧
         ctx2 = ⟨ctx1.req, ((h.getD defaultErrorHandler) ctx1).res, ctx1.part,
           catchError var t1, none⟩ ∧
         (∀ t2, ((h.getD defaultErrorHandler) ctx2).retOrThrow = some t2 →
            (validate var σ h r res).dispNext = [some t2])) ∧
    (∀ ctx, (validate var σ h r res).handlerCalls = [ctx] →
       (validate var σ h r res).handlerNext = ((h.getD defaultErrorHandler) ctx).nextCalls) := by
  rw [validate_eq]
  have hshape := runParts_shape var σ (h.getD defaultErrorHandler) res partOrder
    (initReq var r) []
  refine ⟨?_, ?_, ?_, ?_⟩
  · intro ctx' hc' hres' t' hro'
    rcases hshape with ⟨hc, _, _, _⟩ | ⟨ctx, hc, _, hro, _, _, _⟩
        | ⟨ctx, t, hc, _, _, hro, hd, _, _⟩
        | ⟨ctx1, ctx2, t1, hc, _, _, _, _, _, _, _, _⟩
    · rw [hc] at hc'; exact List.noConfusion hc'
    · rw [hc] at hc'
      injection hc' with h1 h2
      subst h1
      rw [hro] at hro'
      exact Option.noConfusion hro'
    · rw [hc] at hc'
      injection hc' with h1 h2
      subst h1
      rw [hro] at hro'
      obtain rfl := Option.some.inj hro'
      exact hd
    · rw [hc] at hc'
      injection hc' with h1 h2
      exact List.noConfusion h2
  · intro ctx' hlast hro'
    rcases hshape with ⟨hc, _, _, _⟩ | ⟨ctx, hc, _, hro, hd, hRres, _⟩
        | ⟨ctx, t, hc, _, _, hro, _, _, _⟩
        | ⟨ctx1, ctx2, t1, hc, _, _, hro1, hctx2, hRres, _, hd0, _⟩
    · rw [hc] at hlast; exact Option.noConfusion hlast
    · rw [hc, getLast?_one] at hlast
      obtain rfl := Option.some.inj hlast
      exact ⟨hd, hRres⟩
    · rw [hc, getLast?_one] at hlast
      obtain rfl := Option.some.inj hlast
      rw [hro] at hro'
      exact Option.noConfusion hro'
    · rw [hc, getLast?_two] at hlast
      obtain rfl := Option.some.inj hlast
      exact ⟨hd0 hro', hRres⟩
  · intro ctx1' ctx2' hc'
    rcases hshape with ⟨hc, _, _, _⟩ | ⟨ctx, hc, _, _, _, _, _⟩
        | ⟨ctx, t, hc, _, _, _, _, _, _⟩
        | ⟨ctx1, ctx2, t1, hc, _, _, hro1, hctx2, _, _, _, hdt⟩
    · rw [hc] at hc'; exact List.noConfusion hc'
    · rw [hc] at hc'
      injection hc' with h1 h2
      exact List.noConfusion h2
    · rw [hc] at hc'
      injection hc' with h1 h2
      exact List.noConfusion h2
    · rw [hc] at hc'
      injection hc' with h1 h2
      injection h2 with h3 h4
      subst h1
      subst h3
      exact ⟨t1, hro1, hctx2, hdt⟩
  · intro ctx' hc'
    rcases hshape with ⟨hc, _, _, _⟩ | ⟨ctx, hc, _, _, _, _, hnext⟩
        | ⟨ctx, t, hc, _, _, _, _, _, hnext⟩
        | ⟨ctx1, ctx2, t1, hc, _, _, _, _, _, _, _, _⟩
    · rw [hc] at hc'; exact List.noConfusion hc'
    · rw [hc] at hc'
      injection hc' with h1 h2
      subst h1
      exact hnext
    · rw [hc] at hc'
      injection hc' with h1 h2
      subst h1
      exact hnext
    · rw [hc] at hc'
      injection hc' with h1 h2
      exact List.noConfusion h2

theorem c7_witness :
    (validate Variant.wt ⟨some failBad, none, none, none⟩ none sampleReq sampleRes).dispNext
      = [] ∧
    (validate Variant.wt ⟨some failBad, none, none, none⟩ none sampleReq sampleRes).res
      = ⟨some 400, some (RespBody.errorWithCause "bad" none)⟩ := by
  obtain ⟨_, k2, _, _⟩ :=
    c7_fault_forwarding Variant.wt ⟨some failBad, none, none, none⟩ none sampleReq sampleRes
  exact k2 ⟨sampleReq, sampleRes, Part.body, HandlerError.structured ⟨"bad", none⟩,
    some ⟨"bad", none⟩⟩ rfl rfl

theorem validate_none_eq (var : Variant) (σ : SchemaMap) (r : Req) (res : Res) :
    validate var σ none r res
      = runParts var σ defaultErrorHandler res partOrder (initReq var r) [] := rfl

theorem validate_default_single (var : Variant) (σ : SchemaMap) (r : Req) (res : Res)
    (ctx : HandlerCtx)
    (hc : (validate var σ none r res).handlerCalls = [ctx]) :
    (validate var σ none r res).res = (defaultErrorHandler ctx).res ∧
    (validate var σ none r res).dispNext = [] ∧
    (validate var σ none r res).handlerNext = (defaultErrorHandler ctx).nextCalls := by
  rw [validate_none_eq] at hc ⊢
  rcases runParts_shape var σ defaultErrorHandler res partOrder (initReq var r) [] with
      ⟨hc', _, _, _⟩ | ⟨ctx', hc', _, hro', hd, hRres, hnext⟩
      | ⟨ctx', t, hc', _, _, hro', _, _, _⟩
      | ⟨ctx1, ctx2, t1, hc', _, _, hro1, _, _, _, _, _⟩
  · rw [hc'] at hc; exact List.noConfusion hc
  · rw [hc'] at hc
    injection hc with h1 h2
    subst h1
    exact ⟨hRres, hd, hnext⟩
  · rw [defaultErrorHandler_ret ctx'] at hro'
    exact Option.noConfusion hro'
  · rw [defaultErrorHandler_ret ctx1] at hro1
    exact Option.noConfusion hro1

/-- C4 counterexample: a validator that throws an Error instance with message
boom reaches the error handler with that very message, not with a generic
unknown-error message, so the claimed generic message does not hold for every
throw. -/
theorem c4_counterexample :
    (validate Variant.ns ⟨some throwBoom, none, none, none⟩ none sampleReq
        sampleRes).handlerCalls.map HandlerCtx.error
      = [HandlerError.thrown (Thrown.errObj "boom")] ∧
    (validate Variant.ns ⟨some throwBoom, none, none, none⟩ none sampleReq
        sampleRes).handlerCalls.map HandlerCtx.result = [none] ∧
    HandlerError.thrown (Thrown.errObj "boom")
      ≠ HandlerError.thrown (Thrown.errObj "Unknown error") := ⟨rfl, rfl, by decide⟩

/-- C4 (amended): when a declared part's validator throws and no earlier part
fails, the dispatcher routes the fault through the error handler in a single
invocation whose context names that part, carries no result field, and carries
the variant's normalization of the thrown value (generic unknown-error only
for a non-Error throw in the namespace variant, for a falsy throw in the
write-through variant); the exception does not escape the dispatcher. -/
theorem c4_throw_routed (var : Variant) (σ : SchemaMap) (h : Option Handler)
    (r : Req) (res : Res) (p : Part) (v : Validator) (t : Thrown)
    (hσ : σ.get p = some v)
    (ht : v (r.getPart p) = ValidatorOutcome.throws t)
    (hmin : ∀ q : Part, q.idx < p.idx → partFailsB σ r q = false) :
    ∃ ctx, (validate var σ h r res).handlerCalls = [ctx] ∧
      ctx.part = p ∧ ctx.result = none ∧ ctx.error = catchError var t := by
  have hfail : partFailsB σ r p = true := by
    simp only [partFailsB, hσ, ht, outcomeFails]
  rw [validate_eq]
  obtain ⟨v', hσ', k1, k2, k3, k4, k5, k6, k7⟩ :=
    runParts_firstFail var σ (h.getD defaultErrorHandler) res r p partOrder
      (initReq var r) [] partOrder_pairwise (initReq_pre var r) (mem_partOrder p) hfail
      (fun q _ hlt => hmin q hlt)
  obtain rfl : v' = v := by
    rw [hσ] at hσ'
    exact (Option.some.inj hσ').symm
  obtain ⟨ctx, hctx⟩ := k4 t ht
  obtain ⟨_, _, hthrowimp, _⟩ := k3 ctx (by rw [hctx]; rfl)
  obtain ⟨herr, hresn⟩ := hthrowimp t ht
  refine ⟨ctx, hctx, ?_, hresn, herr⟩
  exact k1 ctx (by rw [hctx]; exact List.mem_singleton.mpr rfl)

theorem c4_witness :
    (validate Variant.ns ⟨some throwNull, none, none, none⟩ none sampleReq
        sampleRes).handlerCalls.map HandlerCtx.result = [none] ∧
    (validate Variant.ns ⟨some throwNull, none, none, none⟩ none sampleReq
        sampleRes).handlerCalls.map HandlerCtx.part = [Part.body] := by
  obtain ⟨ctx, hctx, hpart, hres, herr⟩ :=
    c4_throw_routed Variant.ns ⟨some throwNull, none, none, none⟩ none sampleReq sampleRes
      Part.body throwNull (Thrown.value Value.vNull) rfl rfl (by decide)
  rw [hctx, List.map_singleton, List.map_singleton, hres, hpart]
  exact ⟨rfl, rfl⟩

/-- C5: with no custom error handler supplied, a structured validation failure
produces status 400 and a JSON body exposing the error message and optional
cause; a validator throw (no structured result) produces status 400 and a JSON
body with the string form of the normalized fault; and the default handler
never invokes the continuation. -/
theorem c5_default_handler_response (var : Variant) (σ : SchemaMap)
    (r : Req) (res : Res) (p : Part) (v : Validator)
    (hσ : σ.get p = some v)
    (hmin : ∀ q : Part, q.idx < p.idx → partFailsB σ r q = false) :
    (∀ e, v (r.getPart p) = ValidatorOutcome.returns (ParseReturn.failure e) →
       (validate var σ none r res).res
         = ⟨some 400, some (RespBody.errorWithCause e.message e.cause)⟩ ∧
       (validate var σ none r res).dispNext = [] ∧
       (validate var σ none r res).handlerNext = []) ∧
    (∀ t, v (r.getPart p) = ValidatorOutcome.throws t →
       (validate var σ none r res).res
         = ⟨some 400, some (RespBody.errorOnly (jsStringOfError (catchError var t)))⟩ ∧
       (validate var σ none r res).dispNext = [] ∧
       (validate var σ none r res).handlerNext = []) := by
  constructor
  · intro e he
    have hfail : partFailsB σ r p = true := by
      simp only [partFailsB, hσ, he, outcomeFails]
    obtain ⟨v', hσ', k1, k2, k3, k4, k5, k6, k7⟩ :=
      runParts_firstFail var σ defaultErrorHandler res r p partOrder
        (initReq var r) [] partOrder_pairwise (initReq_pre var r) (mem_partOrder p) hfail
        (fun q _ hlt => hmin q hlt)
    obtain rfl : v' = v := by
      rw [hσ] at hσ'
      exact (Option.some.inj hσ').symm
    cases hcalls : (runParts var σ defaultErrorHandler res partOrder (initReq var r) []).handlerCalls with
    | nil => exact absurd hcalls k2
    | cons ctx tail =>
      obtain ⟨_, hfailimp, _, hsingle⟩ := k3 ctx (by rw [hcalls]; rfl)
      obtain ⟨herr, hres⟩ := hfailimp e he
      have hc1 : (validate var σ none r res).handlerCalls = [ctx] := by
        rw [validate_none_eq]
        exact hsingle (defaultErrorHandler_ret ctx)
      obtain ⟨g1, g2, g3⟩ := validate_default_single var σ r res ctx hc1
      rw [defaultErrorHandler_result_some ctx e hres] at g1 g3
      exact ⟨g1, g2, g3⟩
  · intro t ht
    have hfail : partFailsB σ r p = true := by
      simp only [partFailsB, hσ, ht, outcomeFails]
    obtain ⟨v', hσ', k1, k2, k3, k4, k5, k6, k7⟩ :=
      runParts_firstFail var σ defaultErrorHandler res r p partOrder
        (initReq var r) [] partOrder_pairwise (initReq_pre var r) (mem_partOrder p) hfail
        (fun q _ hlt => hmin q hlt)
    obtain rfl : v' = v := by
      rw [hσ] at hσ'
      exact (Option.some.inj hσ').symm
    obtain ⟨ctx, hctx⟩ := k4 t ht
    obtain ⟨_, _, hthrowimp, _⟩ := k3 ctx (by rw [hctx]; rfl)
    obtain ⟨herr, hres⟩ := hthrowimp t ht
    have hc1 : (validate var σ none r res).handlerCalls = [ctx] := by
      rw [validate_none_eq]
      exact hctx
    obtain ⟨g1, g2, g3⟩ := validate_default_single var σ r res ctx hc1
    rw [defaultErrorHandler_result_none ctx hres, herr] at g1 g3
    exact ⟨g1, g2, g3⟩

theorem c5_witness :
    (validate Variant.wt ⟨none, some failBad, none, none⟩ none sampleReq sampleRes).res
      = ⟨some 400, some (RespBody.errorWithCause "bad" none)⟩ ∧
    (validate Variant.wt ⟨none, some failBad, none, none⟩ none sampleReq sampleRes).dispNext
      = [] ∧
    (validate Variant.wt ⟨none, some failBad, none, none⟩ none sampleReq sampleRes).handlerNext
      = [] := by
  have hmin : ∀ q : Part, q.idx < Part.query.idx →
      partFailsB ⟨none, some failBad, none, none⟩ sampleReq q = false := by decide
  obtain ⟨kfail, _⟩ :=
    c5_default_handler_response Variant.wt ⟨none, some failBad, none, none⟩ sampleReq
      sampleRes Part.query failBad rfl hmin
  exact kfail ⟨"bad", none⟩ rfl

/-- C9: when a request fails at part p (the earliest failing part), the
normalized outputs already stored for earlier successfully validated parts are
not rolled back, while the failing part's slot and every later slot keep their
post-initialization values and the native fields of those parts keep their raw
values. -/
theorem c9_no_rollback (var : Variant) (σ : SchemaMap) (h : Option Handler)
    (r : Req) (res : Res) (p : Part)
    (hfail : partFailsB σ r p = true)
    (hmin : ∀ q : Part, q.idx < p.idx → partFailsB σ r q = false) :
    (∀ q v, q.idx < p.idx → σ.get q = some v →
       ∃ d, v (r.getPart q) = ValidatorOutcome.returns (ParseReturn.success d) ∧
         validatedData var (validate var σ h r res).req q = some d) ∧
    (∀ q, p.idx ≤ q.idx →
       validatedData var (validate var σ h r res).req q
         = validatedData var (initReq var r) q ∧
       (validate var σ h r res).req.getPart q = r.getPart q) := by
  rw [validate_eq]
  obtain ⟨v, hσ, k1, k2, k3, k4, k5, k6, k7⟩ :=
    runParts_firstFail var σ (h.getD defaultErrorHandler) res r p partOrder
      (initReq var r) [] partOrder_pairwise (initReq_pre var r) (mem_partOrder p) hfail
      (fun q _ hlt => hmin q hlt)
  constructor
  · intro q v' hlt hv'
    exact k6 q v' (mem_partOrder q) hlt hv'
  · intro q hle
    obtain ⟨f1, f2⟩ := k7 q (fun _ => Or.inl hle)
    exact ⟨f1, f2.trans (getPart_initReq var r q)⟩

theorem c9_witness :
    partFailsB ⟨some okTwo, some failBad, none, none⟩ sampleReq Part.query = true ∧
    validatedData Variant.ns
      (validate Variant.ns ⟨some okTwo, some failBad, none, none⟩ none sampleReq
        sampleRes).req Part.body = some (Value.vInt 2) ∧
    validatedData Variant.ns
      (validate Variant.ns ⟨some okTwo, some failBad, none, none⟩ none sampleReq
        sampleRes).req Part.query
      = validatedData Variant.ns (initReq Variant.ns sampleReq) Part.query ∧
    (validate Variant.ns ⟨some okTwo, some failBad, none, none⟩ none sampleReq
        sampleRes).req.getPart Part.query = sampleReq.getPart Part.query := by
  have hmin : ∀ q : Part, q.idx < Part.query.idx →
      partFailsB ⟨some okTwo, some failBad, none, none⟩ sampleReq q = false := by decide
  obtain ⟨k1, k2⟩ :=
    c9_no_rollback Variant.ns ⟨some okTwo, some failBad, none, none⟩ none sampleReq
      sampleRes Part.query rfl hmin
  obtain ⟨d, hd, hvd⟩ := k1 Part.body okTwo (by decide) rfl
  obtain rfl : d = Value.vInt 2 := by
    injection hd with h1
    injection h1 with h2
    exact h2.symm
  obtain ⟨f1, f2⟩ := k2 Part.query (Nat.le_refl _)
  exact ⟨rfl, hvd, f1, f2⟩

/-- C10: in the namespace variant, when a declared part's validator throws a
non-Error value the single error-handler invocation receives a fresh Error
whose message is exactly Unknown error (the thrown value is discarded), while
a thrown Error instance reaches the handler unchanged with its own message. -/
theorem c10_ns_throw_normalization (σ : SchemaMap) (h : Option Handler)
    (r : Req) (res : Res) (p : Part) (v : Validator) (t : Thrown)
    (hσ : σ.get p = some v)
    (ht : v (r.getPart p) = ValidatorOutcome.throws t)
    (hmin : ∀ q : Part, q.idx < p.idx → partFailsB σ r q = false) :
    ∃ ctx, (validate Variant.ns σ h r res).handlerCalls = [ctx] ∧
      ctx.part = p ∧ ctx.result = none ∧
      (∀ w, t = Thrown.value w →
         ctx.error = HandlerError.thrown (Thrown.errObj "Unknown error")) ∧
      (∀ m, t = Thrown.errObj m → ctx.error = HandlerError.thrown (Thrown.errObj m)) := by
  have hfail : partFailsB σ r p = true := by
    simp only [partFailsB, hσ, ht, outcomeFails]
  rw [validate_eq]
  obtain ⟨v', hσ', k1, k2, k3, k4, k5, k6, k7⟩ :=
    runParts_firstFail Variant.ns σ (h.getD defaultErrorHandler) res r p partOrder
      (initReq Variant.ns r) [] partOrder_pairwise (initReq_pre Variant.ns r)
      (mem_partOrder p) hfail (fun q _ hlt => hmin q hlt)
  obtain rfl : v' = v := by
    rw [hσ] at hσ'
    exact (Option.some.inj hσ').symm
  obtain ⟨ctx, hctx⟩ := k4 t ht
  obtain ⟨_, _, hthrowimp, _⟩ := k3 ctx (by rw [hctx]; rfl)
  obtain ⟨herr, hresn⟩ := hthrowimp t ht
  refine ⟨ctx, hctx, k1 ctx (by rw [hctx]; exact List.mem_singleton.mpr rfl), hresn, ?_, ?_⟩
  · intro w hw
    subst hw
    exact herr
  · intro m hm
    subst hm
    exact herr

theorem c10_witness :
    (validate Variant.ns
        ⟨some (fun _ => ValidatorOutcome.throws (Thrown.value (Value.vStr "oops"))),
          none, none, none⟩ none sampleReq sampleRes).handlerCalls.map HandlerCtx.error
      = [HandlerError.thrown (Thrown.errObj "Unknown error")] := by
  obtain ⟨ctx, hctx, _, _, hval, _⟩ :=
    c10_ns_throw_normalization
      ⟨some (fun _ => ValidatorOutcome.throws (Thrown.value (Value.vStr "oops"))),
        none, none, none⟩ none sampleReq sampleRes Part.body
      (fun _ => ValidatorOutcome.throws (Thrown.value (Value.vStr "oops")))
      (Thrown.value (Value.vStr "oops")) rfl rfl (by decide)
  rw [hctx, List.map_singleton, hval (Value.vStr "oops") rfl]

/-- C6 counterexample: in the namespace variant, on a fully successful request
with a normalizing body schema, the validated form is stored in the namespace
but the raw body field is left unchanged, so the raw data is not replaced by
its validated form. -/
theorem c6_counterexample :
    (validate Variant.ns ⟨some okTwo, none, none, none⟩ none sampleReq
        sampleRes).handlerCalls = [] ∧
    (validate Variant.ns ⟨some okTwo, none, none, none⟩ none sampleReq
        sampleRes).dispNext = [none] ∧
    validatedData Variant.ns
      (validate Variant.ns ⟨some okTwo, none, none, none⟩ none sampleReq
        sampleRes).req Part.body = some (Value.vInt 2) ∧
    (validate Variant.ns ⟨some okTwo, none, none, none⟩ none sampleReq
        sampleRes).req.body = Value.vInt 1 ∧
    (Value.vInt 1 : Value) ≠ Value.vInt 2 := ⟨rfl, rfl, rfl, rfl, by decide⟩

/-- C6 (amended): parts with no declared schema are never evaluated and their
native fields are left untouched on every request; on full success each
declared part's validated form is stored in the variant's designated slot: the
write-through variant replaces the native field with it, while the namespace
variant stores it in the validated-data namespace and leaves the native field
holding the raw value. -/
theorem c6_frame_and_success (var : Variant) (σ : SchemaMap) (h : Option Handler)
    (r : Req) (res : Res) :
    (∀ q, σ.get q = none →
       q ∉ (validate var σ h r res).evaluated ∧
       (validate var σ h r res).req.getPart q = r.getPart q) ∧
    ((∀ q : Part, partFailsB σ r q = false) →
       ∀ q v, σ.get q = some v →
         ∃ d, v (r.getPart q) = ValidatorOutcome.returns (ParseReturn.success d) ∧
           validatedData var (validate var σ h r res).req q = some d ∧
           (var = Variant.wt → (validate var σ h r res).req.getPart q = d) ∧
           (var = Variant.ns → (validate var σ h r res).req.getPart q = r.getPart q)) := by
  rw [validate_eq]
  constructor
  · intro q hq
    obtain ⟨fr1, fr2⟩ :=
      runParts_frame var σ (h.getD defaultErrorHandler) res partOrder (initReq var r) []
    constructor
    · intro hmem
      rcases fr1 q hmem with hq' | ⟨v, hv⟩
      · exact absurd hq' (List.not_mem_nil q)
      · rw [hq] at hv; exact Option.noConfusion hv
    · exact (fr2 q hq).1.trans (getPart_initReq var r q)
  · intro hok q v hv
    obtain ⟨_, _, _, _, c5', _, _⟩ :=
      runParts_success var σ (h.getD defaultErrorHandler) res r partOrder
        (initReq var r) [] partOrder_nodup (initReq_pre var r) (fun q' _ => hok q')
    obtain ⟨d, hd, hvd⟩ := c5' q v (mem_partOrder q) hv
    refine ⟨d, hd, hvd, ?_, ?_⟩
    · intro hvar
      subst hvar
      exact Option.some.inj hvd
    · intro hvar
      subst hvar
      rw [runParts_getPart_ns]
      exact getPart_initReq Variant.ns r q

theorem c6_witness :
    (∀ q : Part, partFailsB ⟨some okTwo, none, none, none⟩ sampleReq q = false) ∧
    (validate Variant.wt ⟨some okTwo, none, none, none⟩ none sampleReq
        sampleRes).req.getPart Part.query = sampleReq.getPart Part.query ∧
    (validate Variant.wt ⟨some okTwo, none, none, none⟩ none sampleReq
        sampleRes).req.getPart Part.body = Value.vInt 2 := by
  have hok : ∀ q : Part, partFailsB ⟨some okTwo, none, none, none⟩ sampleReq q = false := by
    decide
  obtain ⟨ka, kb⟩ :=
    c6_frame_and_success Variant.wt ⟨some okTwo, none, none, none⟩ none sampleReq sampleRes
  obtain ⟨d, hd, hvd, hwt, _⟩ := kb hok Part.body okTwo rfl
  obtain rfl : d = Value.vInt 2 := by
    injection hd with h1
    injection h1 with h2
    exact h2.symm
  exact ⟨hok, (ka Part.query rfl).2, hwt rfl⟩

end Esmw
